import Mathlib

/-!
# Verification of the De_Looper stream orchestrator (`main.py`)

Shallow embedding of the orchestrator in `main.py`:

* the chat skip-vote handling of `monitor_chat` (lines 238-287),
* the per-clip relay loop of `pipe_to_stream` (lines 291-395),
* the pipeline dispatch of `stream_and_recheck_playlist` (lines 460-463),
* the resume logic `load_progress` / start-index scan (lines 176-186, 420-434),
* the playback loop with played-id tracking, progress saving and the
  47-hour stream-age restart (lines 399-503),
* the shutdown handler `graceful_shutdown` (lines 190-217).

Strings are modelled as `List Char` where character-level operations matter
(Python `.strip().lower()`), otherwise as `String`.  Wall-clock time is
modelled by attributing a duration to each clip playback; subprocess I/O is
modelled by an explicit trace of read results fed to the relay loop.
-/

namespace DeLooper

/-! ## Character/string helpers mirroring Python `str.strip` / `str.lower` -/

def lowerChars (s : List Char) : List Char :=
  s.map Char.toLower

def trimChars (s : List Char) : List Char :=
  ((s.dropWhile Char.isWhitespace).reverse.dropWhile Char.isWhitespace).reverse

/-! ## Vote tracker (`monitor_chat`, main.py lines 238-287)

`skip_votes` is a Python `set` of lowercased usernames; `skip_threshold = 3`.
A message handler step processes one parsed PRIVMSG `{username, text}`:
text is stripped and lowercased and compared to `"!skip"`; instant-skip
users fire the event immediately; otherwise the user is added to the vote
set and the threshold is checked against the updated set, firing and
clearing the set when reached.  `fires` counts `skip_event.set()` calls. -/

structure ChatMsg where
  username : String
  text : String
deriving DecidableEq

structure VoteState where
  votes : Finset (List Char)
  fires : Nat
deriving DecidableEq

def skip_threshold : Nat := 3

def normText (m : ChatMsg) : List Char :=
  lowerChars (trimChars m.text.data)

def normUser (m : ChatMsg) : List Char :=
  lowerChars m.username.data

def isSkipMsg (m : ChatMsg) : Bool :=
  normText m == "!skip".data

def isInstantSkip (allow : List String) (m : ChatMsg) : Bool :=
  (allow.map (fun u => lowerChars u.data)).contains (normUser m)

def monitor_chat_step (allow : List String) (st : VoteState) (m : ChatMsg) : VoteState :=
  if isSkipMsg m then
    if isInstantSkip allow m then
      { st with fires := st.fires + 1 }
    else
      let votes' := insert (normUser m) st.votes
      if skip_threshold ≤ votes'.card then
        ⟨∅, st.fires + 1⟩
      else
        { st with votes := votes' }
  else st

def runVotes (allow : List String) (msgs : List ChatMsg) : VoteState :=
  msgs.foldl (monitor_chat_step allow) ⟨∅, 0⟩

/-! ### Vote accumulation invariant below the threshold -/

lemma monitor_chat_step_vote (allow : List String) (st : VoteState) (m : ChatMsg)
    (hskip : isSkipMsg m = true) (hinst : isInstantSkip allow m = false)
    (hcard : (insert (normUser m) st.votes).card < skip_threshold) :
    monitor_chat_step allow st m = ⟨insert (normUser m) st.votes, st.fires⟩ := by
  simp only [monitor_chat_step, hskip, hinst, if_true, Bool.false_eq_true, if_false]
  rw [if_neg (by omega)]

lemma foldl_votes_bounded (allow : List String) (T : Finset (List Char))
    (hT : T.card ≤ 2) :
    ∀ (msgs : List ChatMsg) (st : VoteState),
      (∀ m ∈ msgs, isSkipMsg m = true ∧ isInstantSkip allow m = false ∧ normUser m ∈ T) →
      st.votes ⊆ T →
      msgs.foldl (monitor_chat_step allow) st =
        ⟨st.votes ∪ (msgs.map normUser).toFinset, st.fires⟩ := by
  intro msgs
  induction msgs with
  | nil =>
      intro st _ _
      simp
  | cons m rest ih =>
      intro st hm hsub
      obtain ⟨hskip, hinst, hmem⟩ := hm m (List.mem_cons_self m rest)
      have hsub' : insert (normUser m) st.votes ⊆ T := by
        exact Finset.insert_subset hmem hsub
      have hcard : (insert (normUser m) st.votes).card < skip_threshold := by
        have := Finset.card_le_card hsub'
        simp only [skip_threshold]
        omega
      rw [List.foldl_cons, monitor_chat_step_vote allow st m hskip hinst hcard]
      rw [ih ⟨insert (normUser m) st.votes, st.fires⟩
            (fun x hx => hm x (List.mem_cons_of_mem m hx)) hsub']
      simp only [List.map_cons, List.toFinset_cons]
      congr 1
      rw [Finset.insert_union, Finset.union_insert]

/-- Claim C2. With the configured threshold `skip_threshold = 3` and an initially
empty vote set, skip-keyword messages from 3 distinct non-allow-listed
normalized user ids `a`, `b`, `c` — where `a` and `b` send any number of
messages (repeats from the same id count once) and the trigger message is the
first message whose sender normalizes to `c` — fire the cancellation signal
exactly once and clear the vote set; the first two distinct ids alone
(`pre`, any number of repeated messages) fire no cancellation. -/
theorem c2_vote_threshold (allow : List String) (a b c : List Char)
    (pre : List ChatMsg) (mc : ChatMsg)
    (hab : a ≠ b) (hac : a ≠ c) (hbc : b ≠ c)
    (hpre : ∀ m ∈ pre, isSkipMsg m = true ∧ isInstantSkip allow m = false ∧
      (normUser m = a ∨ normUser m = b))
    (ha : ∃ m ∈ pre, normUser m = a) (hb : ∃ m ∈ pre, normUser m = b)
    (hmcSkip : isSkipMsg mc = true) (hmcInst : isInstantSkip allow mc = false)
    (hmcUser : normUser mc = c) :
    runVotes allow (pre ++ [mc]) = ⟨∅, 1⟩ ∧ (runVotes allow pre).fires = 0 := by
  have hT : ({a, b} : Finset (List Char)).card ≤ 2 := by
    apply le_trans (Finset.card_insert_le a {b})
    simp
  have hpre' : ∀ m ∈ pre, isSkipMsg m = true ∧ isInstantSkip allow m = false ∧
      normUser m ∈ ({a, b} : Finset (List Char)) := by
    intro m hm
    obtain ⟨h1, h2, h3⟩ := hpre m hm
    exact ⟨h1, h2, by simpa using h3⟩
  have hrun : runVotes allow pre =
      ⟨∅ ∪ (pre.map normUser).toFinset, 0⟩ := by
    exact foldl_votes_bounded allow {a, b} hT pre ⟨∅, 0⟩ hpre' (Finset.empty_subset _)
  have hvotes : (pre.map normUser).toFinset = ({a, b} : Finset (List Char)) := by
    apply Finset.Subset.antisymm
    · intro x hx
      rw [List.mem_toFinset, List.mem_map] at hx
      obtain ⟨m, hm, hmx⟩ := hx
      rcases (hpre m hm).2.2 with h | h <;> simp [← hmx, h]
    · intro x hx
      rw [List.mem_toFinset, List.mem_map]
      rcases Finset.mem_insert.mp hx with h | h
      · obtain ⟨m, hm, hma⟩ := ha
        exact ⟨m, hm, by rw [hma, h]⟩
      · obtain ⟨m, hm, hmb⟩ := hb
        exact ⟨m, hm, by rw [hmb, Finset.mem_singleton.mp h]⟩
  have hstate : runVotes allow pre = ⟨{a, b}, 0⟩ := by
    rw [hrun, hvotes, Finset.empty_union]
  refine ⟨?_, by rw [hstate]⟩
  have hfold : runVotes allow (pre ++ [mc]) =
      monitor_chat_step allow (runVotes allow pre) mc := by
    simp [runVotes, List.foldl_append]
  rw [hfold, hstate]
  have hcnotin : c ∉ ({a, b} : Finset (List Char)) := by
    simp only [Finset.mem_insert, Finset.mem_singleton]
    push_neg
    exact ⟨fun h => hac h.symm, fun h => hbc h.symm⟩
  have hcard : (insert c ({a, b} : Finset (List Char))).card = 3 := by
    rw [Finset.card_insert_of_not_mem hcnotin]
    rw [Finset.card_insert_of_not_mem (by simpa using hab)]
    simp
  simp only [monitor_chat_step, hmcSkip, hmcInst, hmcUser, if_true,
    Bool.false_eq_true, if_false]
  rw [if_pos (by rw [hcard]; decide)]

/-- Witness for `c2_vote_threshold`: threshold 3, allow-list `["streamer"]`,
messages Alice, alice (repeat), Bob, then Carol; exactly one fire, set
cleared, and no fire before Carol's message. -/
theorem c2_vote_threshold_witness :
    runVotes ["streamer"]
        [⟨"Alice", "!skip"⟩, ⟨"alice", " !SKIP "⟩, ⟨"Bob", "!skip"⟩, ⟨"Carol", "!skip"⟩] =
      ⟨∅, 1⟩ ∧
    (runVotes ["streamer"]
        [⟨"Alice", "!skip"⟩, ⟨"alice", " !SKIP "⟩, ⟨"Bob", "!skip"⟩]).fires = 0 := by
  have h := c2_vote_threshold ["streamer"] "alice".data "bob".data "carol".data
    [⟨"Alice", "!skip"⟩, ⟨"alice", " !SKIP "⟩, ⟨"Bob", "!skip"⟩] ⟨"Carol", "!skip"⟩
    (by decide) (by decide) (by decide) (by decide) (by decide) (by decide)
    (by decide) (by decide) (by decide)
  exact h

/-- Claim C8. A single skip-keyword message from an allow-listed user id
(case-insensitive comparison) fires the cancellation signal immediately —
from any vote state, regardless of the accumulated votes — and leaves the
vote set untouched, so it does not count toward the threshold for others. -/
theorem c8_instant_skip (allow : List String) (st : VoteState) (m : ChatMsg)
    (hskip : isSkipMsg m = true) (hinst : isInstantSkip allow m = true) :
    monitor_chat_step allow st m = ⟨st.votes, st.fires + 1⟩ := by
  simp [monitor_chat_step, hskip, hinst]

/-- Witness for `c8_instant_skip`: `MOD` is allow-listed as `mod`; a single
`!skip` from `MOD` fires immediately with the vote set (holding `alice`)
unchanged. -/
theorem c8_instant_skip_witness :
    monitor_chat_step ["mod"] ⟨{"alice".data}, 0⟩ ⟨"MOD", "!skip"⟩ =
      ⟨{"alice".data}, 1⟩ :=
  c8_instant_skip ["mod"] ⟨{"alice".data}, 0⟩ ⟨"MOD", "!skip"⟩ (by decide) (by decide)

/-- Counterexample to claim C5. The claim says the vote set is empty the instant
*any* skip triggers, including an instant-skip.  Concretely: with `alice`
already in the vote set, an instant-skip message from allow-listed `Mod`
fires the cancellation (fires becomes 1) yet the vote set still contains
`alice` — `monitor_chat` only clears `skip_votes` on the threshold path,
and nothing resets it when a new clip begins. -/
theorem c5_counterexample :
    (monitor_chat_step ["mod"] ⟨{"alice".data}, 0⟩ ⟨"Mod", "!skip"⟩).fires = 1 ∧
    (monitor_chat_step ["mod"] ⟨{"alice".data}, 0⟩ ⟨"Mod", "!skip"⟩).votes ≠ ∅ := by
  decide

/-- Amended claim C5. The vote set is cleared exactly when the *threshold*
trigger fires: on a skip message from a non-allow-listed user whose addition
reaches the threshold, the resulting vote set is empty; on an instant-skip
trigger the vote set is left unchanged (and no code path resets the set at
the start of a new clip — the set lives in the chat-monitor thread and the
playback loop never touches it, so votes can persist across clips). -/
theorem c5_amended (allow : List String) (st : VoteState) (m : ChatMsg)
    (hskip : isSkipMsg m = true) :
    (isInstantSkip allow m = true →
      (monitor_chat_step allow st m).votes = st.votes) ∧
    (isInstantSkip allow m = false →
      skip_threshold ≤ (insert (normUser m) st.votes).card →
      (monitor_chat_step allow st m).votes = ∅) := by
  constructor
  · intro hinst
    simp [monitor_chat_step, hskip, hinst]
  · intro hinst hcard
    simp [monitor_chat_step, hskip, hinst, hcard]

/-- Witness for `c5_amended`: instant-skip from `Mod` keeps `alice` in the
set; a third distinct voter `carol` joining `{alice, bob}` clears it. -/
theorem c5_amended_witness :
    (monitor_chat_step ["mod"] ⟨{"alice".data}, 0⟩ ⟨"Mod", "!skip"⟩).votes =
      {"alice".data} ∧
    (monitor_chat_step ["mod"] ⟨{"alice".data, "bob".data}, 0⟩
      ⟨"carol", "!skip"⟩).votes = ∅ := by
  refine ⟨?_, ?_⟩
  · exact (c5_amended ["mod"] ⟨{"alice".data}, 0⟩ ⟨"Mod", "!skip"⟩
      (by decide)).1 (by decide)
  · exact (c5_amended ["mod"] ⟨{"alice".data, "bob".data}, 0⟩ ⟨"carol", "!skip"⟩
      (by decide)).2 (by decide) (by decide)

/-! ## Clip relay loop (`pipe_to_stream`, main.py lines 327-395)

The relay repeatedly reads from the transform child's stdout.  We model the
environment as a trace of read results.  Each `data` step carries the chunk,
whether the write to the sink succeeds (`writeOk = false` models a broken /
closed sink pipe), and whether the skip event is set at that moment (the
code does *not* consult the event in this branch).  An `idle` step is an
empty read while the child is still running (`poll() is None`); only here is
the skip event consulted.  An `exit` step is an empty read after the child
exited: the remaining output is drained and the relay completes. -/

inductive RStep
  | data (bytes : List Nat) (writeOk : Bool) (skipFlag : Bool)
  | idle (skipFlag : Bool)
  | exit (rem : List (List Nat)) (writeOk : Bool)
deriving DecidableEq

inductive RelayOutcome
  | completed
  | skipped
  | sinkBroken
  | starved
deriving DecidableEq

/-- The relay loop of `pipe_to_stream`: returns the chunks written to the
sink and how the loop ended.  `starved` is the model artifact for running
off the end of the environment trace. -/
def pipe_to_stream : List RStep → List (List Nat) × RelayOutcome
  | [] => ([], RelayOutcome.starved)
  | RStep.data b ok _ :: rest =>
      if ok then
        let r := pipe_to_stream rest
        (b :: r.1, r.2)
      else
        ([], RelayOutcome.sinkBroken)
  | RStep.idle sk :: rest =>
      if sk then ([], RelayOutcome.skipped)
      else pipe_to_stream rest
  | RStep.exit rem ok :: _ =>
      if ok then (rem, RelayOutcome.completed)
      else ([], RelayOutcome.completed)

/-- All the bytes the transform child produces along a trace (what the sink
would receive if the clip played to the end). -/
def clipBytes : List RStep → List Nat
  | [] => []
  | RStep.data b _ _ :: rest => b ++ clipBytes rest
  | RStep.idle _ :: rest => clipBytes rest
  | RStep.exit rem _ :: _ => rem.flatten

/-- `true` iff the skip event is set at every step of the trace. -/
def skipSetAll : List RStep → Bool
  | [] => true
  | RStep.data _ _ sk :: rest => sk && skipSetAll rest
  | RStep.idle sk :: rest => sk && skipSetAll rest
  | RStep.exit _ _ :: rest => skipSetAll rest

/-- Counterexample to claim C6. The claim says that when the cancellation trigger
fires during entry k's relay, the relay observes it at a chunk boundary,
terminates the child, and the sink receives only a *strict prefix* of the
entry's bytes.  Concretely: with the skip event set before the first chunk is
even read, a trace of two available data chunks followed by child exit is
relayed *in full* — the data branch of `pipe_to_stream` never consults the
skip event, so the outcome is `completed` (the child is never terminated
early) and the sink receives all of the entry's bytes, not a strict prefix. -/
theorem c6_counterexample :
    skipSetAll [RStep.data [1, 2] true true, RStep.data [3, 4] true true,
        RStep.exit [] true] = true ∧
    pipe_to_stream [RStep.data [1, 2] true true, RStep.data [3, 4] true true,
        RStep.exit [] true] = ([[1, 2], [3, 4]], RelayOutcome.completed) ∧
    (pipe_to_stream [RStep.data [1, 2] true true, RStep.data [3, 4] true true,
        RStep.exit [] true]).1.flatten =
      clipBytes [RStep.data [1, 2] true true, RStep.data [3, 4] true true,
        RStep.exit [] true] := by
  decide

/-- Amended claim C6. The relay consults the skip event only when a read
returns no data while the child is still running.  Chunks read before that
point are forwarded even when the event is already set; at the first empty
read with the event set, the relay stops with outcome `skipped` (child
terminated, event cleared), nothing from the remainder of the trace is
written, and the bytes written form a prefix of the clip's bytes. -/
theorem c6_amended (pre : List (List Nat)) (rest : List RStep) :
    pipe_to_stream (pre.map (fun b => RStep.data b true true) ++
        RStep.idle true :: rest) = (pre, RelayOutcome.skipped) ∧
    (pipe_to_stream (pre.map (fun b => RStep.data b true true) ++
        RStep.idle true :: rest)).1.flatten <+:
      clipBytes (pre.map (fun b => RStep.data b true true) ++
        RStep.idle true :: rest) := by
  have hbytes : clipBytes (pre.map (fun b => RStep.data b true true) ++
      RStep.idle true :: rest) = pre.flatten ++ clipBytes rest := by
    induction pre with
    | nil => simp [clipBytes]
    | cons b tl ih => simp [clipBytes, ih]
  have hrun : pipe_to_stream (pre.map (fun b => RStep.data b true true) ++
      RStep.idle true :: rest) = (pre, RelayOutcome.skipped) := by
    clear hbytes
    induction pre with
    | nil => simp [pipe_to_stream]
    | cons b tl ih => simp [pipe_to_stream, ih]
  refine ⟨hrun, ?_⟩
  rw [hrun, hbytes]
  exact List.prefix_append _ _

/-- Witness for `c6_amended`: two chunks forwarded while the flag is set,
then the skip is observed; the trailing chunk `[4]` is never written. -/
theorem c6_amended_witness :
    pipe_to_stream ([[1, 2], [3]].map (fun b => RStep.data b true true) ++
        RStep.idle true :: [RStep.data [4] true true]) =
      ([[1, 2], [3]], RelayOutcome.skipped) ∧
    (pipe_to_stream ([[1, 2], [3]].map (fun b => RStep.data b true true) ++
        RStep.idle true :: [RStep.data [4] true true])).1.flatten <+:
      clipBytes ([[1, 2], [3]].map (fun b => RStep.data b true true) ++
        RStep.idle true :: [RStep.data [4] true true]) :=
  c6_amended [[1, 2], [3]] [RStep.data [4] true true]

/-! ## Pipeline dispatch (main.py lines 460-463)

The pass-through (`-c copy`, no re-encode) pipeline is chosen iff the
entry's `file_path` contains the substring `"_processed.mp4"` and the file
exists on disk at playback time; otherwise the normalize (re-encode)
pipeline runs on that same path. -/

/-- Python's `pat in s` substring test, on character lists. -/
def containsSub (pat : List Char) : List Char → Bool
  | [] => pat.isEmpty
  | c :: t => pat.isPrefixOf (c :: t) || containsSub pat t

def strContains (s pat : String) : Bool :=
  containsSub pat.data s.data

/-- The per-clip pipeline invocation: which file is handed to ffmpeg and
whether the pass-through command is used. -/
structure PipelineCall where
  input : String
  is_preprocessed : Bool
deriving DecidableEq

/-- Dispatch from `stream_and_recheck_playlist` lines 460-463:
`if "_processed.mp4" in media_file and os.path.exists(media_file)`.
`fileExists` models `os.path.exists(media_file)`. -/
def choose_pipeline (media_file : String) (fileExists : Bool) : PipelineCall :=
  if strContains media_file "_processed.mp4" && fileExists then
    ⟨media_file, true⟩
  else
    ⟨media_file, false⟩

/-- The ffmpeg command built in `pipe_to_stream` (main.py lines 294-321) for
a given media file: pass-through uses stream copy, otherwise the normalize
transform re-encodes. -/
def clip_ffmpeg_command (media_file : String) (is_pre : Bool) : List String :=
  if is_pre then
    ["ffmpeg", "-loglevel", "error", "-re", "-i", media_file,
     "-c", "copy", "-f", "mpegts", "-"]
  else
    ["ffmpeg", "-loglevel", "error", "-re", "-i", media_file,
     "-s", "1280x720", "-c:v", "libx264", "-b:v", "2300k", "-g", "60",
     "-r", "30", "-c:a", "aac", "-ar", "44100", "-f", "mpegts", "-"]

/-- Claim C10. The pass-through pipeline is chosen iff the path contains
`"_processed.mp4"` and the file exists; both branches are invoked on the
same path (argument right after `-i`); a `_processed.mp4` path whose file is
missing goes to the normalize pipeline; the pass-through command stream-copies
(`-c copy`) while the normalize command re-encodes (`-c:v libx264`). -/
theorem c10_pipeline_choice (f : String) (ex : Bool) :
    ((choose_pipeline f ex).is_preprocessed = true ↔
      (strContains f "_processed.mp4" = true ∧ ex = true)) ∧
    (choose_pipeline f ex).input = f ∧
    (strContains f "_processed.mp4" = true → ex = false →
      choose_pipeline f ex = ⟨f, false⟩) ∧
    (clip_ffmpeg_command f true).get? 5 = some f ∧
    (clip_ffmpeg_command f false).get? 5 = some f ∧
    (clip_ffmpeg_command f true).get? 6 = some "-c" ∧
    (clip_ffmpeg_command f true).get? 7 = some "copy" ∧
    (clip_ffmpeg_command f false).get? 8 = some "-c:v" ∧
    (clip_ffmpeg_command f false).get? 9 = some "libx264" := by
  refine ⟨?_, ?_, ?_, ?_, ?_, ?_, ?_, ?_, ?_⟩
  · constructor
    · intro h
      by_cases hc : strContains f "_processed.mp4" = true
      · by_cases he : ex = true
        · exact ⟨hc, he⟩
        · simp [choose_pipeline, Bool.eq_false_iff.mpr he] at h
      · simp [choose_pipeline, Bool.eq_false_iff.mpr hc] at h
    · intro ⟨hc, he⟩
      simp [choose_pipeline, hc, he]
  · by_cases hc : strContains f "_processed.mp4" && ex
    · simp [choose_pipeline, hc]
    · simp [choose_pipeline, hc]
  · intro hc he
    simp [choose_pipeline, hc, he]
  · simp [clip_ffmpeg_command]
  · simp [clip_ffmpeg_command]
  · simp [clip_ffmpeg_command]
  · simp [clip_ffmpeg_command]
  · simp [clip_ffmpeg_command]
  · simp [clip_ffmpeg_command]

/-- Witness for `c10_pipeline_choice`: a `_processed.mp4` path with the file
missing is normalized (not pass-through) on the same path, and the same path
with the file present is pass-through. -/
theorem c10_pipeline_choice_witness :
    choose_pipeline "ep1_processed.mp4" false = ⟨"ep1_processed.mp4", false⟩ ∧
    (choose_pipeline "ep1_processed.mp4" true).is_preprocessed = true := by
  constructor
  · exact (c10_pipeline_choice "ep1_processed.mp4" false).2.2.1 (by decide) rfl
  · exact ((c10_pipeline_choice "ep1_processed.mp4" true).1).mpr ⟨by decide, rfl⟩

/-! ## Progress store and resume (`load_progress` lines 176-186,
start-index scan lines 420-434) -/

/-- What the progress file can look like on startup: absent, present but
empty/unparseable JSON, or valid JSON (whose
`"last_played_videoNumber"` key may itself be absent). -/
inductive ProgressFile
  | missing
  | invalid
  | valid (v : Option Int)
deriving DecidableEq

/-- `load_progress` (main.py lines 176-186): `None` when the file is
missing or raises `json.JSONDecodeError`, otherwise the stored value. -/
def load_progress : ProgressFile → Option Int
  | ProgressFile.missing => none
  | ProgressFile.invalid => none
  | ProgressFile.valid v => v

/-- A playlist entry as consumed by the loop (irrelevant metadata omitted). -/
structure Entry where
  videoNumber : Int
  file_path : String
deriving DecidableEq

/-- Index of the first entry whose `videoNumber` equals `x`
(the `for i, media in enumerate(media_files)` scan, lines 423-428). -/
def findStart (x : Int) : List Entry → Option Nat
  | [] => none
  | m :: rest =>
      if m.videoNumber = x then some 0
      else (findStart x rest).map (· + 1)

/-- The starting index of a pass (main.py lines 420-434): the index right
after the last played `videoNumber`, or `0` with a diagnostic when it is
not found, or `0` when there is no last played number. -/
def start_index (media : List Entry) : Option Int → Nat
  | none => 0
  | some x =>
      match findStart x media with
      | some i => i + 1
      | none => 0

/-! ## Playback loop (`stream_and_recheck_playlist`, main.py lines 399-503)

The loop is modelled as a generator of an event trace.  `env` assigns to
each entry id the outcome of its relay (how `pipe_to_stream` ended) and the
wall-clock duration the playback took; time advances only while a clip
plays.  Per entry the code emits: start of playback, end of playback with
the relay outcome, the transition filler (skipped when the sink pipe broke,
since `play_transition` is a no-op on a dead sink), `save_progress`, and —
when the sink session age now exceeds `max_stream_duration` — a forced sink
restart (which resets the session age to 0). -/

/-- Maximum stream duration before restarting (main.py line 24):
47 hours in seconds. -/
def max_stream_duration : Nat := 47 * 60 * 60

inductive POutcome
  | completed
  | skipped
  | sinkBroken
deriving DecidableEq

structure PlayInput where
  outcome : POutcome
  duration : Nat
deriving DecidableEq

inductive LoopEv
  | playStart (id : Int) (age : Nat)
  | playEnd (id : Int) (outcome : POutcome)
  | filler
  | save (id : Int)
  | restart
deriving DecidableEq

/-- One pass over the remaining playlist suffix (the inner
`while idx < len(media_files)` loop, lines 435-493): returns the emitted
events, the updated `played_ids`, and the sink session age afterwards. -/
def play_from (env : Int → PlayInput) :
    List Entry → List Int → Nat → List LoopEv × List Int × Nat
  | [], played, age => ([], played, age)
  | m :: rest, played, age =>
      if m.videoNumber ∈ played then
        play_from env rest played age
      else
        let inp := env m.videoNumber
        let age1 := age + inp.duration
        let r := play_from env rest (m.videoNumber :: played)
          (if max_stream_duration < age1 then 0 else age1)
        (([LoopEv.playStart m.videoNumber age,
           LoopEv.playEnd m.videoNumber inp.outcome] ++
          (if inp.outcome = POutcome.sinkBroken then [] else [LoopEv.filler]) ++
          [LoopEv.save m.videoNumber] ++
          (if max_stream_duration < age1 then [LoopEv.restart] else [])) ++ r.1,
         r.2.1, r.2.2)

/-- The outer `while True` loop of `stream_and_recheck_playlist`
(lines 411-502): each iteration re-reads the playlist source (`src` indexed
by pass number), computes the start index from the last played number, runs
one pass, then resets the last played number to `None`.  `fuel` bounds the
number of passes we unroll; an empty playlist returns.  `played_ids` is
created once (line 409) and threaded through all passes. -/
def stream_and_recheck (env : Int → PlayInput) (src : Nat → List Entry) :
    Nat → Nat → Option Int → List Int → Nat → List LoopEv
  | 0, _, _, _, _ => []
  | fuel + 1, passNo, last, played, age =>
      let media := src passNo
      if media.isEmpty then []
      else
        let r := play_from env (media.drop (start_index media last)) played age
        r.1 ++ stream_and_recheck env src fuel (passNo + 1) none r.2.1 r.2.2

/-! ### Trace projections -/

def evPlayId : LoopEv → Option Int
  | LoopEv.playStart i _ => some i
  | _ => none

def evSaveId : LoopEv → Option Int
  | LoopEv.save i => some i
  | _ => none

def evRestartTag : LoopEv → Option Unit
  | LoopEv.restart => some ()
  | _ => none

def playsOf (t : List LoopEv) : List Int := t.filterMap evPlayId

def savesOf (t : List LoopEv) : List Int := t.filterMap evSaveId

def restartsOf (t : List LoopEv) : List Unit := t.filterMap evRestartTag

/-! ### Basic playback-loop lemmas -/

/-- Entries whose ids are all in `played_ids` are skipped without emitting
anything (lines 442-445). -/
lemma play_from_all_played (env : Int → PlayInput) :
    ∀ (l : List Entry) (played : List Int) (age : Nat),
      (∀ m ∈ l, m.videoNumber ∈ played) →
      play_from env l played age = ([], played, age) := by
  intro l
  induction l with
  | nil => intro played age _; rfl
  | cons m rest ih =>
      intro played age h
      have hm : m.videoNumber ∈ played := h m (List.mem_cons_self m rest)
      rw [show play_from env (m :: rest) played age = play_from env rest played age by
        simp [play_from, hm]]
      exact ih played age fun x hx => h x (List.mem_cons_of_mem m hx)

/-- The benign environment: every relay completes, taking no time. -/
def env0 : Int → PlayInput := fun _ => ⟨POutcome.completed, 0⟩

/-- Under `env0`, a pass over fresh entries with distinct ids plays and saves
every entry in order, prepends the ids (reversed) to `played_ids`, and
leaves the sink session age at 0. -/
lemma play_from_env0 :
    ∀ (l : List Entry) (played : List Int),
      (l.map Entry.videoNumber).Nodup →
      (∀ m ∈ l, m.videoNumber ∉ played) →
      playsOf (play_from env0 l played 0).1 = l.map Entry.videoNumber ∧
      savesOf (play_from env0 l played 0).1 = l.map Entry.videoNumber ∧
      (play_from env0 l played 0).2.1 = (l.map Entry.videoNumber).reverse ++ played ∧
      (play_from env0 l played 0).2.2 = 0 := by
  intro l
  induction l with
  | nil => intro played _ _; exact ⟨rfl, rfl, rfl, rfl⟩
  | cons m rest ih =>
      intro played hnd h
      have hm : m.videoNumber ∉ played := h m (List.mem_cons_self m rest)
      have hstep : play_from env0 (m :: rest) played 0 =
          (([LoopEv.playStart m.videoNumber 0,
             LoopEv.playEnd m.videoNumber POutcome.completed,
             LoopEv.filler, LoopEv.save m.videoNumber]) ++
            (play_from env0 rest (m.videoNumber :: played) 0).1,
           (play_from env0 rest (m.videoNumber :: played) 0).2.1,
           (play_from env0 rest (m.videoNumber :: played) 0).2.2) := by
        simp [play_from, hm, env0]
      have hndRest : (rest.map Entry.videoNumber).Nodup := (List.nodup_cons.mp hnd).2
      have hHead : m.videoNumber ∉ rest.map Entry.videoNumber :=
        (List.nodup_cons.mp hnd).1
      have hfresh : ∀ x ∈ rest, x.videoNumber ∉ m.videoNumber :: played := by
        intro x hx
        rw [List.mem_cons]
        push_neg
        refine ⟨?_, h x (List.mem_cons_of_mem m hx)⟩
        intro hxm
        exact hHead (hxm ▸ List.mem_map_of_mem Entry.videoNumber hx)
      obtain ⟨ih1, ih2, ih3, ih4⟩ := ih (m.videoNumber :: played) hndRest hfresh
      refine ⟨?_, ?_, ?_, ?_⟩
      · rw [hstep]
        simp [playsOf, List.filterMap_append, evPlayId, playsOf] at ih1 ⊢
        simp [List.filterMap, evPlayId, ih1]
      · rw [hstep]
        simp [savesOf, List.filterMap_append, evSaveId, savesOf] at ih2 ⊢
        simp [List.filterMap, evSaveId, ih2]
      · rw [hstep]
        simp only [ih3, List.map_cons, List.reverse_cons, List.append_assoc,
          List.singleton_append]
      · rw [hstep]
        exact ih4

/-- Unfolding of one pass of the outer loop. -/
lemma stream_and_recheck_succ (env : Int → PlayInput) (src : Nat → List Entry)
    (fuel passNo : Nat) (last : Option Int) (played : List Int) (age : Nat) :
    stream_and_recheck env src (fuel + 1) passNo last played age =
      if (src passNo).isEmpty then [] else
        (play_from env ((src passNo).drop (start_index (src passNo) last)) played age).1 ++
          stream_and_recheck env src fuel (passNo + 1) none
            (play_from env ((src passNo).drop (start_index (src passNo) last)) played age).2.1
            (play_from env ((src passNo).drop (start_index (src passNo) last)) played age).2.2 :=
  rfl

/-- The spec scenario playlist `[{id:1,A},{id:2,B},{id:3,C}]`. -/
def scenario : List Entry := [⟨1, "A.mp4"⟩, ⟨2, "B.mp4"⟩, ⟨3, "C.mp4"⟩]

/-- Counterexample to claim C1. The claim says the per-pass played-id set is
cleared at the start of every new pass, so on pass 2 entry A (id 1) plays
again.  In the code `played_ids` is created once *before* the outer loop
(line 409) and never cleared: with the scenario playlist, no cursor and no
votes, two passes of the loop produce exactly pass 1's events —
A, filler, save 1, B, filler, save 2, C, filler, save 3 — and entry 1 is
played exactly once, never a second time. -/
theorem c1_counterexample :
    stream_and_recheck env0 (fun _ => scenario) 2 0 none [] 0 =
      [LoopEv.playStart 1 0, LoopEv.playEnd 1 POutcome.completed,
       LoopEv.filler, LoopEv.save 1,
       LoopEv.playStart 2 0, LoopEv.playEnd 2 POutcome.completed,
       LoopEv.filler, LoopEv.save 2,
       LoopEv.playStart 3 0, LoopEv.playEnd 3 POutcome.completed,
       LoopEv.filler, LoopEv.save 3] ∧
    (playsOf (stream_and_recheck env0 (fun _ => scenario) 2 0 none [] 0)).count 1 = 1 := by
  decide

/-- Amended claim C1. `played_ids` is initialized once per program run and
never cleared between passes; a later pass replays nothing already played.
For any playlist with distinct ids (constant playlist source, no cursor, no
votes): two passes play and save exactly the playlist's ids once each, in
order — the sink receives entry 1, filler, entry 2, filler, …, and pass 2
adds nothing; the cursor after pass 1 is the *last* id (3 in the scenario).
Entries newly appended for pass 2 do play: if pass 2's snapshot is the
scenario plus a fresh entry 4, the two passes play exactly 1, 2, 3, 4. -/
theorem c1_amended (media : List Entry)
    (hnd : (media.map Entry.videoNumber).Nodup) :
    playsOf (stream_and_recheck env0 (fun _ => media) 2 0 none [] 0) =
      media.map Entry.videoNumber ∧
    savesOf (stream_and_recheck env0 (fun _ => media) 2 0 none [] 0) =
      media.map Entry.videoNumber ∧
    (savesOf (stream_and_recheck env0 (fun _ => media) 2 0 none [] 0)).getLast? =
      (media.map Entry.videoNumber).getLast? ∧
    playsOf (stream_and_recheck env0
        (fun n => if n = 0 then scenario else scenario ++ [⟨4, "D.mp4"⟩]) 2 0 none [] 0) =
      [1, 2, 3, 4] := by
  by_cases hm : media = []
  · subst hm
    refine ⟨rfl, rfl, rfl, by decide⟩
  · have hne : media.isEmpty = false := by
      simpa [List.isEmpty_iff] using hm
    have h1 : stream_and_recheck env0 (fun _ => media) 2 0 none [] 0 =
        (play_from env0 media [] 0).1 ++
          stream_and_recheck env0 (fun _ => media) 1 1 none
            (play_from env0 media [] 0).2.1 (play_from env0 media [] 0).2.2 := by
      rw [stream_and_recheck_succ env0 (fun _ => media) 1 0 none [] 0]
      simp [hne, start_index]
    obtain ⟨hp, hs, hids, hage⟩ :=
      play_from_env0 media [] hnd (by intro x _; exact List.not_mem_nil _)
    have hall : ∀ x ∈ media, x.videoNumber ∈ (play_from env0 media [] 0).2.1 := by
      intro x hx
      rw [hids]
      simp only [List.append_nil, List.mem_reverse]
      exact List.mem_map_of_mem Entry.videoNumber hx
    have h2 : stream_and_recheck env0 (fun _ => media) 1 1 none
        (play_from env0 media [] 0).2.1 (play_from env0 media [] 0).2.2 = [] := by
      rw [stream_and_recheck_succ env0 (fun _ => media) 0 1 none _ _]
      simp only [hne, if_false, start_index, List.drop_zero]
      rw [play_from_all_played env0 media _ _ hall]
      rfl
    rw [h1, h2, List.append_nil]
    exact ⟨hp, hs, by rw [hs], by decide⟩

/-! ### Resume logic (C3) -/

lemma head_of_drop {α : Type} (l : List α) : ∀ n, (l.drop n).head? = l.get? n := by
  induction l with
  | nil => intro n; cases n <;> rfl
  | cons a t ih =>
      intro n
      cases n with
      | zero => rfl
      | succ k => simp [ih k]

/-- `findStart` really returns the position of an entry with the sought id. -/
lemma findStart_found (x : Int) :
    ∀ (l : List Entry) (i : Nat), findStart x l = some i →
      ∃ m, l.get? i = some m ∧ m.videoNumber = x := by
  intro l
  induction l with
  | nil => intro i h; cases h
  | cons m rest ih =>
      intro i h
      by_cases hm : m.videoNumber = x
      · rw [findStart, if_pos hm] at h
        obtain rfl : (0 : Nat) = i := Option.some.inj h
        exact ⟨m, rfl, hm⟩
      · rw [findStart, if_neg hm] at h
        obtain ⟨j, hj, hji⟩ := Option.map_eq_some'.mp h
        obtain ⟨m', hm', hx⟩ := ih j hj
        exact ⟨m', by rw [← hji]; simpa using hm', hx⟩

lemma findStart_none (x : Int) :
    ∀ l : List Entry, (∀ m ∈ l, m.videoNumber ≠ x) → findStart x l = none := by
  intro l
  induction l with
  | nil => intro _; rfl
  | cons m rest ih =>
      intro h
      rw [findStart, if_neg (h m (List.mem_cons_self m rest))]
      rw [ih fun m' hm' => h m' (List.mem_cons_of_mem m hm')]
      rfl

/-- With an empty `played_ids`, the first entry of the suffix is the first
one played. -/
lemma playsOf_play_from_head (env : Int → PlayInput) (l : List Entry) (age : Nat) :
    (playsOf (play_from env l [] age).1).head? = l.head?.map Entry.videoNumber := by
  cases l with
  | nil => rfl
  | cons m rest =>
      simp [play_from, playsOf, evPlayId]

/-- One-pass trace as a function of the start index. -/
lemma stream_one_pass (env : Int → PlayInput) (media : List Entry)
    (last : Option Int) (hne : media.isEmpty = false) :
    stream_and_recheck env (fun _ => media) 1 0 last [] 0 =
      (play_from env (media.drop (start_index media last)) [] 0).1 := by
  rw [stream_and_recheck_succ env (fun _ => media) 0 0 last [] 0]
  simp [hne]
  rfl

/-- Claim C3. Startup resume: when the progress cursor holds `x` and the scan
finds `x` at index `i` of the current snapshot, the pass starts at index
`i + 1`, so the first entry played is the one immediately following `x`;
when no entry has id `x`, the pass starts at index 0 (first entry, with a
diagnostic); with no cursor the pass starts at the first entry; a missing or
unparseable progress file loads as no cursor. -/
theorem c3_resume (media : List Entry) (x : Int) (env : Int → PlayInput) :
    (∀ i, findStart x media = some i →
      start_index media (some x) = i + 1 ∧
      (∃ m, media.get? i = some m ∧ m.videoNumber = x) ∧
      (playsOf (stream_and_recheck env (fun _ => media) 1 0 (some x) [] 0)).head? =
        (media.get? (i + 1)).map Entry.videoNumber) ∧
    ((∀ m ∈ media, m.videoNumber ≠ x) →
      start_index media (some x) = 0 ∧
      (playsOf (stream_and_recheck env (fun _ => media) 1 0 (some x) [] 0)).head? =
        media.head?.map Entry.videoNumber) ∧
    (start_index media none = 0 ∧
      (playsOf (stream_and_recheck env (fun _ => media) 1 0 none [] 0)).head? =
        media.head?.map Entry.videoNumber) ∧
    load_progress ProgressFile.missing = none ∧
    load_progress ProgressFile.invalid = none := by
  have hEmptyCase : media.isEmpty = true → media = [] := by
    intro h; exact List.isEmpty_iff.mp h
  refine ⟨?_, ?_, ?_, rfl, rfl⟩
  · intro i hi
    have hstart : start_index media (some x) = i + 1 := by
      rw [start_index, hi]
    have hne : media.isEmpty = false := by
      cases media with
      | nil => cases hi
      | cons a t => rfl
    refine ⟨hstart, findStart_found x media i hi, ?_⟩
    rw [stream_one_pass env media (some x) hne, hstart,
      playsOf_play_from_head, head_of_drop]
  · intro habs
    have hstart : start_index media (some x) = 0 := by
      rw [start_index, findStart_none x media habs]
    refine ⟨hstart, ?_⟩
    by_cases hne : media.isEmpty
    · rw [hEmptyCase hne]
      rfl
    · rw [stream_one_pass env media (some x) (by simpa using hne), hstart,
        List.drop_zero, playsOf_play_from_head]
  · refine ⟨rfl, ?_⟩
    by_cases hne : media.isEmpty
    · rw [hEmptyCase hne]
      rfl
    · rw [stream_one_pass env media none (by simpa using hne)]
      rw [show start_index media none = 0 from rfl, List.drop_zero,
        playsOf_play_from_head]

/-- Witness for `c3_resume`: persisted cursor `2` with the scenario playlist
resumes at entry C (id 3); cursor `9` (absent) and a missing progress file
both start at entry A (id 1). -/
theorem c3_resume_witness :
    (start_index scenario (some 2) = 2 ∧
      (playsOf (stream_and_recheck env0 (fun _ => scenario) 1 0 (some 2) [] 0)).head? =
        some 3) ∧
    (start_index scenario (some 9) = 0 ∧
      (playsOf (stream_and_recheck env0 (fun _ => scenario) 1 0 (some 9) [] 0)).head? =
        some 1) ∧
    load_progress ProgressFile.missing = none := by
  refine ⟨⟨?_, ?_⟩, ⟨?_, ?_⟩, (c3_resume scenario 2 env0).2.2.2.1⟩
  · exact ((c3_resume scenario 2 env0).1 1 (by decide)).1
  · have h := ((c3_resume scenario 2 env0).1 1 (by decide)).2.2
    simpa using h
  · exact ((c3_resume scenario 9 env0).2.1 (by decide)).1
  · have h := ((c3_resume scenario 9 env0).2.1 (by decide)).2
    simpa using h

/-! ### Broken sink pipe (C4) -/

/-- Relay environment for the C4 scenario: the sink pipe breaks during
entry 1's relay; entry 2 then completes. -/
def envC4 : Int → PlayInput :=
  fun i => if i = 1 then ⟨POutcome.sinkBroken, 0⟩ else ⟨POutcome.completed, 0⟩

/-- Counterexample to claim C4. The claim says a broken-pipe write during entry
k's relay bubbles up as `Failed(SinkClosed)`: the loop force-restarts the
sink and retries entry k without advancing the cursor.  Concretely, with a
two-entry playlist where the sink pipe breaks during entry 1: the loop saves
progress for entry 1 (advancing the cursor), emits no sink restart, and
moves straight on to entry 2 — entry 1 is played exactly once, never
retried. -/
theorem c4_counterexample :
    stream_and_recheck envC4 (fun _ => [⟨1, "a.mp4"⟩, ⟨2, "b.mp4"⟩]) 1 0 none [] 0 =
      [LoopEv.playStart 1 0, LoopEv.playEnd 1 POutcome.sinkBroken, LoopEv.save 1,
       LoopEv.playStart 2 0, LoopEv.playEnd 2 POutcome.completed,
       LoopEv.filler, LoopEv.save 2] ∧
    (playsOf (stream_and_recheck envC4
        (fun _ => [⟨1, "a.mp4"⟩, ⟨2, "b.mp4"⟩]) 1 0 none [] 0)).count 1 = 1 ∧
    restartsOf (stream_and_recheck envC4
        (fun _ => [⟨1, "a.mp4"⟩, ⟨2, "b.mp4"⟩]) 1 0 none [] 0) = [] ∧
    savesOf (stream_and_recheck envC4
        (fun _ => [⟨1, "a.mp4"⟩, ⟨2, "b.mp4"⟩]) 1 0 none [] 0) = [1, 2] := by
  decide

/-- Amended claim C4. When a sink write fails with a broken pipe, the relay
does stop immediately — no further chunk of the entry is written — but the
outcome is not surfaced to the loop: `pipe_to_stream` returns normally, the
loop saves entry k's id as completed (advancing the cursor), plays no filler
(the transition is a no-op on a dead sink), performs no sink restart, and
continues with entry k+1; there is no retry of entry k. -/
theorem c4_amended (pre : List (List Nat × Bool)) (c : List Nat) (sf : Bool)
    (rest : List RStep) (m : Entry) (others : List Entry)
    (env : Int → PlayInput) (played : List Int) (age : Nat)
    (h1 : (env m.videoNumber).outcome = POutcome.sinkBroken)
    (h2 : (env m.videoNumber).duration = 0)
    (h3 : m.videoNumber ∉ played)
    (h4 : ¬ max_stream_duration < age) :
    pipe_to_stream (pre.map (fun p => RStep.data p.1 true p.2) ++
        RStep.data c false sf :: rest) =
      (pre.map Prod.fst, RelayOutcome.sinkBroken) ∧
    play_from env (m :: others) played age =
      ([LoopEv.playStart m.videoNumber age,
        LoopEv.playEnd m.videoNumber POutcome.sinkBroken,
        LoopEv.save m.videoNumber] ++
          (play_from env others (m.videoNumber :: played) age).1,
       (play_from env others (m.videoNumber :: played) age).2.1,
       (play_from env others (m.videoNumber :: played) age).2.2) := by
  constructor
  · induction pre with
    | nil => simp [pipe_to_stream]
    | cons p tl ih => simp [pipe_to_stream, ih]
  · simp [play_from, h1, h2, h3, h4]

/-- Witness for `c4_amended`: one good chunk, then a broken write; entry 1
broken, entry 2 pending. -/
theorem c4_amended_witness :
    pipe_to_stream [RStep.data [9] true false, RStep.data [7] false false] =
      ([[9]], RelayOutcome.sinkBroken) ∧
    play_from envC4 [⟨1, "a.mp4"⟩, ⟨2, "b.mp4"⟩] [] 0 =
      ([LoopEv.playStart 1 0, LoopEv.playEnd 1 POutcome.sinkBroken,
        LoopEv.save 1] ++ (play_from envC4 [⟨2, "b.mp4"⟩] [1] 0).1,
       (play_from envC4 [⟨2, "b.mp4"⟩] [1] 0).2.1,
       (play_from envC4 [⟨2, "b.mp4"⟩] [1] 0).2.2) :=
  c4_amended [([9], false)] [7] false [] ⟨1, "a.mp4"⟩ [⟨2, "b.mp4"⟩] envC4 [] 0
    (by decide) (by decide) (by decide) (by decide)

/-- Witness for `c1_amended` at the scenario playlist. -/
theorem c1_amended_witness :
    playsOf (stream_and_recheck env0 (fun _ => scenario) 2 0 none [] 0) =
      scenario.map Entry.videoNumber ∧
    savesOf (stream_and_recheck env0 (fun _ => scenario) 2 0 none [] 0) =
      scenario.map Entry.videoNumber ∧
    (savesOf (stream_and_recheck env0 (fun _ => scenario) 2 0 none [] 0)).getLast? =
      (scenario.map Entry.videoNumber).getLast? ∧
    playsOf (stream_and_recheck env0
        (fun n => if n = 0 then scenario else scenario ++ [⟨4, "D.mp4"⟩]) 2 0 none [] 0) =
      [1, 2, 3, 4] :=
  c1_amended scenario (by decide)

/-! ### Sink session age and restart boundary (C7) -/

/-- Checks that every clip enters `Playing` with a sink session age at most
the configured ceiling. -/
def agesOk : List LoopEv → Bool
  | [] => true
  | LoopEv.playStart _ a :: t => decide (a ≤ max_stream_duration) && agesOk t
  | _ :: t => agesOk t

/-- Checks that no forced sink restart happens between a `playStart` and
its matching `playEnd`, i.e. while a clip relay is in flight. -/
def boundaryOk : List LoopEv → Bool → Bool
  | [], _ => true
  | LoopEv.playStart _ _ :: t, _ => boundaryOk t true
  | LoopEv.playEnd _ _ :: t, _ => boundaryOk t false
  | LoopEv.restart :: t, inFlight => !inFlight && boundaryOk t inFlight
  | _ :: t, f => boundaryOk t f

lemma agesOk_append (l1 l2 : List LoopEv) :
    agesOk (l1 ++ l2) = (agesOk l1 && agesOk l2) := by
  induction l1 with
  | nil => simp [agesOk]
  | cons e t ih => cases e <;> simp [agesOk, ih, Bool.and_assoc]

lemma play_from_agesOk (env : Int → PlayInput) :
    ∀ (l : List Entry) (played : List Int) (age : Nat),
      age ≤ max_stream_duration →
      agesOk (play_from env l played age).1 = true ∧
      (play_from env l played age).2.2 ≤ max_stream_duration := by
  intro l
  induction l with
  | nil => intro played age h; exact ⟨rfl, h⟩
  | cons m rest ih =>
      intro played age h
      by_cases hm : m.videoNumber ∈ played
      · rw [show play_from env (m :: rest) played age =
            play_from env rest played age by simp [play_from, hm]]
        exact ih played age h
      · by_cases hc : max_stream_duration < age + (env m.videoNumber).duration
        · obtain ⟨ihOk, ihAge⟩ := ih (m.videoNumber :: played) 0 (Nat.zero_le _)
          constructor
          · by_cases ho : (env m.videoNumber).outcome = POutcome.sinkBroken <;>
              simp [play_from, hm, hc, ho, agesOk, agesOk_append, ihOk, h]
          · simpa [play_from, hm, hc] using ihAge
        · have hle : age + (env m.videoNumber).duration ≤ max_stream_duration :=
            Nat.not_lt.mp hc
          obtain ⟨ihOk, ihAge⟩ := ih (m.videoNumber :: played) _ hle
          constructor
          · by_cases ho : (env m.videoNumber).outcome = POutcome.sinkBroken <;>
              simp [play_from, hm, hc, ho, agesOk, agesOk_append, ihOk, h]
          · simpa [play_from, hm, hc] using ihAge

lemma play_from_boundary (env : Int → PlayInput) :
    ∀ (l : List Entry) (played : List Int) (age : Nat) (tail : List LoopEv),
      boundaryOk ((play_from env l played age).1 ++ tail) false =
        boundaryOk tail false := by
  intro l
  induction l with
  | nil => intro played age tail; rfl
  | cons m rest ih =>
      intro played age tail
      by_cases hm : m.videoNumber ∈ played
      · rw [show play_from env (m :: rest) played age =
            play_from env rest played age by simp [play_from, hm]]
        exact ih played age tail
      · by_cases hc : max_stream_duration < age + (env m.videoNumber).duration <;>
          by_cases ho : (env m.videoNumber).outcome = POutcome.sinkBroken <;>
          simp [play_from, hm, hc, ho, boundaryOk] <;>
          exact ih _ _ tail

lemma stream_agesOk (env : Int → PlayInput) (src : Nat → List Entry) :
    ∀ (fuel passNo : Nat) (last : Option Int) (played : List Int) (age : Nat),
      age ≤ max_stream_duration →
      agesOk (stream_and_recheck env src fuel passNo last played age) = true := by
  intro fuel
  induction fuel with
  | zero => intro _ _ _ _ _; rfl
  | succ n ih =>
      intro passNo last played age h
      rw [stream_and_recheck_succ]
      by_cases hne : (src passNo).isEmpty
      · simp [hne, agesOk]
      · obtain ⟨hOk, hAge⟩ := play_from_agesOk env
          ((src passNo).drop (start_index (src passNo) last)) played age h
        simp only [hne, if_false, Bool.false_eq_true]
        rw [agesOk_append, hOk, ih (passNo + 1) none _ _ hAge]
        rfl

lemma stream_boundary (env : Int → PlayInput) (src : Nat → List Entry) :
    ∀ (fuel passNo : Nat) (last : Option Int) (played : List Int) (age : Nat),
      boundaryOk (stream_and_recheck env src fuel passNo last played age) false = true := by
  intro fuel
  induction fuel with
  | zero => intro _ _ _ _; rfl
  | succ n ih =>
      intro passNo last played age
      rw [stream_and_recheck_succ]
      by_cases hne : (src passNo).isEmpty
      · simp [hne, boundaryOk]
      · simp only [hne, if_false, Bool.false_eq_true]
        rw [play_from_boundary]
        exact ih (passNo + 1) none _ _

/-- Claim C7. The sink session ceiling is 47 hours (below the endpoint's 48h
hard limit); provided the loop starts with a fresh sink session (age at most
the ceiling — `main` starts it at age 0), every entry enters `Playing` with
session age at most the ceiling (an overdue session is force-restarted at
the preceding clip boundary first), and no forced restart ever occurs while
a clip relay is in flight — restarts happen only between a `playEnd` and the
next `playStart`. -/
theorem c7_age_restart (env : Int → PlayInput) (src : Nat → List Entry)
    (fuel passNo : Nat) (last : Option Int) (played : List Int) (age : Nat)
    (h : age ≤ max_stream_duration) :
    agesOk (stream_and_recheck env src fuel passNo last played age) = true ∧
    boundaryOk (stream_and_recheck env src fuel passNo last played age) false = true ∧
    max_stream_duration = 47 * 60 * 60 ∧
    max_stream_duration < 48 * 60 * 60 := by
  exact ⟨stream_agesOk env src fuel passNo last played age h,
    stream_boundary env src fuel passNo last played age, rfl, by decide⟩

/-- Witness for `c7_age_restart`: an environment where each clip of the
scenario takes 24 hours, so the session exceeds the 47-hour ceiling after
the second clip and a restart is forced at that clip boundary. -/
theorem c7_age_restart_witness :
    agesOk (stream_and_recheck (fun _ => ⟨POutcome.completed, 24 * 60 * 60⟩)
      (fun _ => scenario) 2 0 none [] 0) = true ∧
    boundaryOk (stream_and_recheck (fun _ => ⟨POutcome.completed, 24 * 60 * 60⟩)
      (fun _ => scenario) 2 0 none [] 0) false = true ∧
    max_stream_duration = 47 * 60 * 60 ∧
    max_stream_duration < 48 * 60 * 60 :=
  c7_age_restart (fun _ => ⟨POutcome.completed, 24 * 60 * 60⟩) (fun _ => scenario)
    2 0 none [] 0 (by decide)

/-! ## Shutdown handler (`graceful_shutdown`, main.py lines 190-217) -/

/-- A child process as seen by the shutdown handler: whether `poll()` says it
is still running, and whether it will exit within the 5-second grace period
after `terminate()`. -/
structure ProcView where
  running : Bool
  exitsInGrace : Bool
deriving DecidableEq

/-- The actions the shutdown handler can take, in order. -/
inductive SAct
  | terminateNormalize
  | waitNormalize (timeout : Option Nat)
  | killNormalize
  | closeStreamStdin
  | terminateStream
  | waitStream (timeout : Option Nat)
  | killStream
  | saveCursor
  | exitZero
deriving DecidableEq

/-- The process state at the moment the termination signal arrives:
`normalize_proc` and `stream_proc` (each possibly `None`), and whether the
stream process's stdin handle is open. -/
structure ShutdownView where
  normalize : Option ProcView
  stream : Option ProcView
  streamHasStdin : Bool
deriving DecidableEq

/-- `graceful_shutdown` (main.py lines 190-217) as the ordered list of
actions it performs: terminate `normalize_proc` with a 5-second wait and a
kill fallback, close `stream_proc.stdin`, terminate `stream_proc` with a
5-second wait and a kill fallback, then `sys.exit(0)`. -/
def graceful_shutdown (st : ShutdownView) : List SAct :=
  (match st.normalize with
   | some p =>
       if p.running then
         [SAct.terminateNormalize, SAct.waitNormalize (some 5)] ++
           (if p.exitsInGrace then [] else [SAct.killNormalize, SAct.waitNormalize none])
       else []
   | none => []) ++
  (match st.stream with
   | some p =>
       if p.running then
         (if st.streamHasStdin then [SAct.closeStreamStdin] else []) ++
           [SAct.terminateStream, SAct.waitStream (some 5)] ++
           (if p.exitsInGrace then [] else [SAct.killStream, SAct.waitStream none])
       else []
   | none => []) ++
  [SAct.exitZero]

/-- Within one pass, every played entry id is saved to the progress store
once its playback finishes (success, skip and sink failure alike). -/
lemma savesOf_eq_playsOf (env : Int → PlayInput) :
    ∀ (l : List Entry) (played : List Int) (age : Nat),
      savesOf (play_from env l played age).1 = playsOf (play_from env l played age).1 := by
  intro l
  induction l with
  | nil => intro played age; rfl
  | cons m rest ih =>
      intro played age
      by_cases hm : m.videoNumber ∈ played
      · rw [show play_from env (m :: rest) played age =
            play_from env rest played age by simp [play_from, hm]]
        exact ih played age
      · by_cases hc : max_stream_duration < age + (env m.videoNumber).duration <;>
          by_cases ho : (env m.videoNumber).outcome = POutcome.sinkBroken <;>
          simp [play_from, hm, hc, ho, savesOf, playsOf, List.filterMap_append,
            List.filterMap, evSaveId, evPlayId] <;>
          simpa [savesOf, playsOf] using ih (m.videoNumber :: played) _

/-- Counterexample to claim C9. The claim says the shutdown handler persists the
current playback cursor before the process exits.  Concretely, with both
child processes running (and responsive): `graceful_shutdown` terminates the
transform child with a 5-second bounded wait, closes the sink's stdin,
terminates the sink with a 5-second bounded wait, and exits — but performs
no cursor-persisting action at all: `save_progress` is never called from the
handler. -/
theorem c9_counterexample :
    graceful_shutdown ⟨some ⟨true, true⟩, some ⟨true, true⟩, true⟩ =
      [SAct.terminateNormalize, SAct.waitNormalize (some 5),
       SAct.closeStreamStdin, SAct.terminateStream, SAct.waitStream (some 5),
       SAct.exitZero] ∧
    SAct.saveCursor ∉ graceful_shutdown ⟨some ⟨true, true⟩, some ⟨true, true⟩, true⟩ := by
  decide

/-- Amended claim C9. On a termination signal the handler terminates an
in-flight transform child with a 5-second grace period before a forced kill,
closes the sink's stdin and waits boundedly (killing on timeout), and exits;
it does *not* itself persist the playback cursor — no state of the handler
produces a save action.  Resumption across restarts instead relies on the
playback loop, which saves every played entry's id right after its playback
ends. -/
theorem c9_amended (st : ShutdownView) (p q : ProcView)
    (hn : st.normalize = some p) (hp : p.running = true)
    (hs : st.stream = some q) (hq : q.running = true)
    (hstdin : st.streamHasStdin = true) :
    (∀ st' : ShutdownView, SAct.saveCursor ∉ graceful_shutdown st') ∧
    (graceful_shutdown st).take 2 =
      [SAct.terminateNormalize, SAct.waitNormalize (some 5)] ∧
    ((p.exitsInGrace = false → SAct.killNormalize ∈ graceful_shutdown st) ∧
      (q.exitsInGrace = false → SAct.killStream ∈ graceful_shutdown st)) ∧
    SAct.closeStreamStdin ∈ graceful_shutdown st ∧
    SAct.waitStream (some 5) ∈ graceful_shutdown st ∧
    (graceful_shutdown st).getLast? = some SAct.exitZero ∧
    (∀ (env : Int → PlayInput) (l : List Entry) (played : List Int) (age : Nat),
      savesOf (play_from env l played age).1 = playsOf (play_from env l played age).1) := by
  refine ⟨?_, ?_, ⟨?_, ?_⟩, ?_, ?_, ?_, fun env l played age => savesOf_eq_playsOf env l played age⟩
  · intro st'
    rcases st' with ⟨n, s, hst⟩
    rcases n with _ | pn <;> rcases s with _ | ps <;>
      rcases hst <;>
      first
        | (rcases pn with ⟨pr, pg⟩; rcases pr <;> rcases pg <;>
            first
              | (rcases ps with ⟨qr, qg⟩; rcases qr <;> rcases qg <;> decide)
              | decide)
        | (rcases ps with ⟨qr, qg⟩; rcases qr <;> rcases qg <;> decide)
        | decide
  · simp [graceful_shutdown, hn, hp]
  · intro hg
    simp [graceful_shutdown, hn, hp, hs, hq, hstdin, hg]
  · intro hg
    simp [graceful_shutdown, hn, hp, hs, hq, hstdin, hg]
  · simp [graceful_shutdown, hn, hp, hs, hq, hstdin]
  · simp [graceful_shutdown, hn, hp, hs, hq, hstdin]
  · by_cases hpg : p.exitsInGrace <;> by_cases hqg : q.exitsInGrace <;>
      simp [graceful_shutdown, hn, hp, hs, hq, hstdin, hpg, hqg]

/-- Witness for `c9_amended`: both processes running, the transform child
hangs past the grace period (so it is killed), the sink is responsive. -/
theorem c9_amended_witness :
    (∀ st' : ShutdownView, SAct.saveCursor ∉ graceful_shutdown st') ∧
    (graceful_shutdown ⟨some ⟨true, false⟩, some ⟨true, true⟩, true⟩).take 2 =
      [SAct.terminateNormalize, SAct.waitNormalize (some 5)] ∧
    ((false = false → SAct.killNormalize ∈
        graceful_shutdown ⟨some ⟨true, false⟩, some ⟨true, true⟩, true⟩) ∧
      (true = false → SAct.killStream ∈
        graceful_shutdown ⟨some ⟨true, false⟩, some ⟨true, true⟩, true⟩)) ∧
    SAct.closeStreamStdin ∈
      graceful_shutdown ⟨some ⟨true, false⟩, some ⟨true, true⟩, true⟩ ∧
    SAct.waitStream (some 5) ∈
      graceful_shutdown ⟨some ⟨true, false⟩, some ⟨true, true⟩, true⟩ ∧
    (graceful_shutdown ⟨some ⟨true, false⟩, some ⟨true, true⟩, true⟩).getLast? =
      some SAct.exitZero ∧
    (∀ (env : Int → PlayInput) (l : List Entry) (played : List Int) (age : Nat),
      savesOf (play_from env l played age).1 = playsOf (play_from env l played age).1) :=
  c9_amended ⟨some ⟨true, false⟩, some ⟨true, true⟩, true⟩ ⟨true, false⟩ ⟨true, true⟩
    rfl rfl rfl rfl rfl

end DeLooper
